import Mathlib

/-!
Shallow embedding of the derived-state maintenance logic of the easyway
schema: the single-active-resume enforcer (trigger function
ensure_single_active_resume on the resumes table), the vote-count
aggregator (update_contact_vote_counts on contact_votes), the profile
completeness scorer (calculate_profile_completeness on user_profiles),
and the ordering of public_contacts_view.  Table rows are records, a
table is a list of rows, nullable SQL columns are Option fields, and
each trigger is the function the migration defines, applied at the
point in the write where the corresponding trigger fires.
-/

namespace Easyway

/-- A row of the resumes table.  The is_active column is a nullable
boolean (added with ADD COLUMN is_active boolean DEFAULT true and no
NOT NULL constraint), so it is modelled as Option Bool. -/
structure ResumeRow where
  id : Nat
  user_id : Nat
  resume_name : String
  is_active : Option Bool
  deriving DecidableEq

/-- Per-row effect of the UPDATE statement inside
ensure_single_active_resume: a row of the same owner as the written row
NEW, other than NEW itself, that currently has is_active = true is set
inactive; every other row is left unchanged. -/
def deactivateRow (new r : ResumeRow) : ResumeRow :=
  if r.user_id = new.user_id ∧ r.id ≠ new.id ∧ r.is_active = some true then
    { r with is_active := some false }
  else r

/-- The trigger function ensure_single_active_resume: when the written
row NEW has is_active = true (SQL three-valued test, so a NULL
is_active does not pass), every other currently active resume of the
same owner is deactivated; otherwise the table is untouched. -/
def ensure_single_active_resume (new : ResumeRow) (db : List ResumeRow) : List ResumeRow :=
  if new.is_active = some true then db.map (deactivateRow new) else db

/-- True when some row of the table carries the given primary key. -/
def hasId (i : Nat) (db : List ResumeRow) : Bool :=
  db.any (fun r => decide (r.id = i))

/-- Overwrite with new every row that shares its primary key. -/
def replaceById (new : ResumeRow) (db : List ResumeRow) : List ResumeRow :=
  db.map (fun r => if r.id = new.id then new else r)

/-- INSERT INTO resumes: the BEFORE trigger fires and then the row is
appended.  A primary key violation makes the whole transaction fail,
leaving the table unchanged. -/
def resumeInsert (new : ResumeRow) (db : List ResumeRow) : List ResumeRow :=
  if hasId new.id db then db
  else ensure_single_active_resume new db ++ [new]

/-- UPDATE of the resume row carrying the primary key of new: the
BEFORE trigger fires for the affected row and then the row is
overwritten.  When no row matches, no row is affected and the trigger
does not fire. -/
def resumeUpdate (new : ResumeRow) (db : List ResumeRow) : List ResumeRow :=
  if hasId new.id db then replaceById new (ensure_single_active_resume new db)
  else db

/-- A sequential write against the resumes table. -/
inductive ResumeWrite where
  | ins (r : ResumeRow)
  | upd (r : ResumeRow)

/-- Apply one write (insert or update), trigger included. -/
def applyResumeWrite (db : List ResumeRow) (w : ResumeWrite) : List ResumeRow :=
  match w with
  | .ins r => resumeInsert r db
  | .upd r => resumeUpdate r db

/-- Number of rows of owner o carrying is_active = true. -/
def countActive (o : Nat) (db : List ResumeRow) : Nat :=
  db.countP (fun r => decide (r.user_id = o ∧ r.is_active = some true))

/-- Well-formedness of the resumes table: primary keys are pairwise
distinct (the id column is PRIMARY KEY). -/
def WFids (db : List ResumeRow) : Prop :=
  (db.map (fun r => r.id)).Nodup

theorem deactivateRow_id (new r : ResumeRow) : (deactivateRow new r).id = r.id := by
  unfold deactivateRow; split <;> rfl

theorem deactivateRow_eq_of_id (new r : ResumeRow) (h : r.id = new.id) :
    deactivateRow new r = r := by
  unfold deactivateRow
  rw [if_neg]
  intro hc
  exact hc.2.1 h

theorem deactivateRow_idem (new r : ResumeRow) :
    deactivateRow new (deactivateRow new r) = deactivateRow new r := by
  by_cases h : r.user_id = new.user_id ∧ r.id ≠ new.id ∧ r.is_active = some true
  · simp [deactivateRow, h]
  · simp [deactivateRow, h]

theorem ensure_ids (new : ResumeRow) (db : List ResumeRow) :
    (ensure_single_active_resume new db).map (fun r => r.id) = db.map (fun r => r.id) := by
  unfold ensure_single_active_resume
  split
  · rw [List.map_map]
    exact List.map_congr_left (fun r _ => deactivateRow_id new r)
  · rfl

theorem replaceById_ids (new : ResumeRow) (db : List ResumeRow) :
    (replaceById new db).map (fun r => r.id) = db.map (fun r => r.id) := by
  unfold replaceById
  rw [List.map_map]
  refine List.map_congr_left (fun r _ => ?_)
  by_cases h : r.id = new.id
  · simp [Function.comp, h]
  · simp [Function.comp, h]

theorem hasId_iff (i : Nat) (db : List ResumeRow) :
    hasId i db = true ↔ i ∈ db.map (fun r => r.id) := by
  simp [hasId, List.any_eq_true, List.mem_map]

theorem replace_mem_id (new : ResumeRow) (l : List ResumeRow) :
    ∀ x ∈ replaceById new l, x.id = new.id → x = new := by
  intro x hx hid
  rcases List.mem_map.1 hx with ⟨y, _, hy⟩
  by_cases h : y.id = new.id
  · rw [← hy]; simp [h]
  · rw [← hy] at hid
    simp [h] at hid

theorem countActive_map_deactivate_own (new : ResumeRow) (db : List ResumeRow) :
    countActive new.user_id (db.map (deactivateRow new)) =
      db.countP (fun r =>
        decide (r.user_id = new.user_id ∧ r.is_active = some true ∧ r.id = new.id)) := by
  unfold countActive
  rw [List.countP_map]
  refine List.countP_congr (fun r _ => ?_)
  simp only [Function.comp, decide_eq_true_eq]
  by_cases hc : r.user_id = new.user_id ∧ r.id ≠ new.id ∧ r.is_active = some true
  · simp only [deactivateRow, if_pos hc]
    constructor
    · intro h
      exact absurd h.2 (by simp)
    · intro h
      exact absurd h.2.2 hc.2.1
  · simp only [deactivateRow, if_neg hc]
    constructor
    · intro h
      refine ⟨h.1, h.2, ?_⟩
      by_contra hne
      exact hc ⟨h.1, hne, h.2⟩
    · intro h
      exact ⟨h.1, h.2.1⟩

theorem countActive_map_deactivate_other (new : ResumeRow) (db : List ResumeRow)
    (o : Nat) (ho : o ≠ new.user_id) :
    countActive o (db.map (deactivateRow new)) = countActive o db := by
  unfold countActive
  rw [List.countP_map]
  refine List.countP_congr (fun r _ => ?_)
  simp only [Function.comp, decide_eq_true_eq]
  by_cases hc : r.user_id = new.user_id ∧ r.id ≠ new.id ∧ r.is_active = some true
  · simp only [deactivateRow, if_pos hc]
    constructor
    · intro h
      exact absurd h.2 (by simp)
    · intro h
      exact absurd (h.1.symm.trans hc.1) ho
  · simp only [deactivateRow, if_neg hc]

theorem countP_id_le_one (db : List ResumeRow) (h : WFids db) (i : Nat) :
    db.countP (fun r => decide (r.id = i)) ≤ 1 := by
  have h1 : db.countP (fun r => decide (r.id = i)) =
      (db.map (fun r => r.id)).countP (fun x => decide (x = i)) := by
    rw [List.countP_map]; rfl
  have h2 : (db.map (fun r => r.id)).countP (fun x => decide (x = i)) =
      (db.map (fun r => r.id)).count i := by
    rw [List.count_eq_countP]
    exact List.countP_congr (fun x _ => by simp)
  rw [h1, h2]
  exact List.nodup_iff_count_le_one.1 h i

theorem WFids_step (db : List ResumeRow) (w : ResumeWrite) (h : WFids db) :
    WFids (applyResumeWrite db w) := by
  cases w with
  | ins r =>
    simp only [applyResumeWrite, resumeInsert]
    by_cases hm : hasId r.id db
    · rw [if_pos hm]; exact h
    · rw [if_neg hm]
      unfold WFids
      rw [List.map_append, List.nodup_append]
      refine ⟨by rw [ensure_ids]; exact h, List.nodup_singleton _, ?_⟩
      intro x hx hx2
      simp at hx2
      rw [ensure_ids] at hx
      rw [hx2] at hx
      exact absurd ((hasId_iff r.id db).2 hx) (by simp [hm])
  | upd r =>
    simp only [applyResumeWrite, resumeUpdate]
    by_cases hm : hasId r.id db
    · rw [if_pos hm]
      unfold WFids
      rw [replaceById_ids, ensure_ids]
      exact h
    · rw [if_neg hm]; exact h

theorem countActive_step (o : Nat) (db : List ResumeRow) (w : ResumeWrite)
    (hWF : WFids db) (h : countActive o db ≤ 1) :
    countActive o (applyResumeWrite db w) ≤ 1 := by
  cases w with
  | ins r =>
    simp only [applyResumeWrite, resumeInsert]
    by_cases hm : hasId r.id db
    · rw [if_pos hm]; exact h
    · rw [if_neg hm]
      have hfresh : ∀ x ∈ db, ¬(x.id = r.id) := by
        intro x hx heq
        exact absurd ((hasId_iff r.id db).2 (List.mem_map.2 ⟨x, hx, heq⟩)) (by simp [hm])
      unfold countActive
      rw [List.countP_append, List.countP_singleton]
      by_cases hg : r.is_active = some true
      · simp only [ensure_single_active_resume, hg, if_true]
        by_cases ho : o = r.user_id
        · subst ho
          have h1 := countActive_map_deactivate_own r db
          unfold countActive at h1
          rw [h1]
          have h2 : db.countP (fun x =>
              decide (x.user_id = r.user_id ∧ x.is_active = some true ∧ x.id = r.id)) = 0 := by
            rw [List.countP_eq_zero]
            intro x hx
            simp only [decide_eq_true_eq, not_and]
            intro _ _
            exact fun he => hfresh x hx he
          rw [h2]
          simp
        · have h1 := countActive_map_deactivate_other r db o ho
          unfold countActive at h1
          rw [h1]
          rw [if_neg (by simp only [decide_eq_true_eq]; exact fun hc => ho hc.1.symm)]
          simpa [countActive] using h
      · simp only [ensure_single_active_resume, hg, if_false]
        rw [if_neg (by simp)]
        simpa [countActive] using h
  | upd r =>
    simp only [applyResumeWrite, resumeUpdate]
    by_cases hm : hasId r.id db
    · rw [if_pos hm]
      by_cases hg : r.is_active = some true
      · simp only [ensure_single_active_resume, hg, if_true]
        by_cases ho : o = r.user_id
        · subst ho
          have hstep : countActive r.user_id (replaceById r (db.map (deactivateRow r))) ≤
              (db.map (deactivateRow r)).countP (fun x => decide (x.id = r.id)) := by
            unfold countActive replaceById
            rw [List.countP_map]
            refine List.countP_mono_left (fun x hx => ?_)
            simp only [Function.comp, decide_eq_true_eq]
            by_cases hid : x.id = r.id
            · intro _; simpa using hid
            · simp only [hid, if_neg hid]
              intro hcx
              exfalso
              rcases List.mem_map.1 hx with ⟨y, hy, hxy⟩
              by_cases hcy : y.user_id = r.user_id ∧ y.id ≠ r.id ∧ y.is_active = some true
              · rw [← hxy] at hcx
                simp [deactivateRow, hcy] at hcx
              · rw [← hxy] at hcx hid
                simp only [deactivateRow, if_neg hcy] at hcx hid
                exact hcy ⟨hcx.1, hid, hcx.2⟩
          refine le_trans hstep ?_
          have hWF2 : WFids (db.map (deactivateRow r)) := by
            unfold WFids
            rw [List.map_map]
            have : db.map ((fun x => x.id) ∘ deactivateRow r) = db.map (fun x => x.id) :=
              List.map_congr_left (fun x _ => deactivateRow_id r x)
            rw [this]
            exact hWF
          exact countP_id_le_one _ hWF2 r.id
        · have hstep : countActive o (replaceById r (db.map (deactivateRow r))) ≤
              countActive o (db.map (deactivateRow r)) := by
            unfold countActive replaceById
            rw [List.countP_map]
            refine List.countP_mono_left (fun x _ => ?_)
            simp only [Function.comp, decide_eq_true_eq]
            by_cases hid : x.id = r.id
            · simp only [hid, if_pos hid]
              intro hc
              exact absurd hc.1.symm ho
            · simp only [hid, if_neg hid]
              exact id
          refine le_trans hstep ?_
          rw [countActive_map_deactivate_other r db o ho]
          exact h
      · simp only [ensure_single_active_resume, hg, if_false]
        have hstep : countActive o (replaceById r db) ≤ countActive o db := by
          unfold countActive replaceById
          rw [List.countP_map]
          refine List.countP_mono_left (fun x _ => ?_)
          simp only [Function.comp, decide_eq_true_eq]
          by_cases hid : x.id = r.id
          · simp only [hid, if_pos hid]
            intro hc
            exact absurd hc.2 hg
          · simp only [hid, if_neg hid]
            exact id
        exact le_trans hstep h
    · rw [if_neg hm]; exact h

/-- Claim C1: starting from a resumes table with distinct primary keys in
which owner o has at most one active resume (for instance the empty
table), any sequence of enforced inserts and updates leaves owner o with
at most one row whose is_active is true after each write completes. -/
theorem single_active_invariant (o : Nat) (db : List ResumeRow) (ws : List ResumeWrite)
    (hWF : WFids db) (h : countActive o db ≤ 1) :
    countActive o (ws.foldl applyResumeWrite db) ≤ 1 := by
  induction ws generalizing db with
  | nil => exact h
  | cons w ws ih =>
    exact ih (applyResumeWrite db w) (WFids_step db w hWF) (countActive_step o db w hWF h)

/-- Concrete resume rows used by the witnesses. -/
def rowA : ResumeRow := { id := 1, user_id := 7, resume_name := "cv one", is_active := some true }

/-- A second active resume of the same owner. -/
def rowB : ResumeRow := { id := 2, user_id := 7, resume_name := "cv two", is_active := some true }

/-- A resume written with a NULL is_active. -/
def rowC : ResumeRow := { id := 3, user_id := 7, resume_name := "cv three", is_active := none }

/-- An active resume of a different owner. -/
def rowD : ResumeRow := { id := 4, user_id := 9, resume_name := "other owner", is_active := some true }

/-- Witness for C1 at a concrete owner, start table and write sequence. -/
theorem single_active_invariant_witness :
    WFids ([] : List ResumeRow) ∧ countActive 7 [] ≤ 1 ∧
      countActive 7
        ([ResumeWrite.ins rowA, ResumeWrite.ins rowB,
          ResumeWrite.upd { rowA with is_active := some true }].foldl applyResumeWrite []) ≤ 1 :=
  ⟨by simp [WFids], by decide, single_active_invariant 7 [] _ (by simp [WFids]) (by decide)⟩

/-- Claim C5: frame of the enforcer.  For a written row with
is_active = true the trigger rewrites, via deactivateRow, only rows
that belong to the same owner, are distinct from the written row and
were active, leaves the written row itself with its caller-supplied
value, and touches no row of another owner; for a written row with
is_active = false it modifies no row at all. -/
theorem enforcer_frame (new : ResumeRow) (db : List ResumeRow) :
    (new.is_active = some true →
      ensure_single_active_resume new db = db.map (deactivateRow new) ∧
      (∀ r : ResumeRow, r.id = new.id → deactivateRow new r = r) ∧
      (∀ r : ResumeRow, r.user_id ≠ new.user_id → deactivateRow new r = r) ∧
      (∀ r : ResumeRow, deactivateRow new r ≠ r →
        r.user_id = new.user_id ∧ r.id ≠ new.id ∧
          deactivateRow new r = { r with is_active := some false }) ∧
      (∀ r ∈ resumeUpdate new db, r.id = new.id → r = new)) ∧
    (new.is_active = some false → ensure_single_active_resume new db = db) := by
  constructor
  · intro hg
    refine ⟨by simp [ensure_single_active_resume, hg], ?_, ?_, ?_, ?_⟩
    · exact fun r h => deactivateRow_eq_of_id new r h
    · intro r h
      unfold deactivateRow
      rw [if_neg (fun hc => h hc.1)]
    · intro r h
      by_cases hc : r.user_id = new.user_id ∧ r.id ≠ new.id ∧ r.is_active = some true
      · exact ⟨hc.1, hc.2.1, by simp [deactivateRow, hc]⟩
      · exact absurd (by simp [deactivateRow, hc]) h
    · intro r hr hid
      unfold resumeUpdate at hr
      by_cases hm : hasId new.id db
      · rw [if_pos hm] at hr
        exact replace_mem_id new _ r hr hid
      · rw [if_neg hm] at hr
        exact absurd ((hasId_iff new.id db).2 (List.mem_map.2 ⟨r, hr, hid⟩)) (by simp [hm])
  · intro hg
    simp [ensure_single_active_resume, hg]

/-- Witness for C5: the enforcer frame equation at a concrete write. -/
theorem enforcer_frame_witness :
    ensure_single_active_resume rowB [rowA, rowD] = [rowA, rowD].map (deactivateRow rowB) :=
  ((enforcer_frame rowB [rowA, rowD]).1 rfl).1

theorem replace_replace_fixed (new : ResumeRow) (l : List ResumeRow) :
    replaceById new (replaceById new l) = replaceById new l := by
  unfold replaceById
  rw [List.map_map]
  refine List.map_congr_left (fun r _ => ?_)
  simp only [Function.comp_apply]
  by_cases h : r.id = new.id
  · simp [h]
  · rw [if_neg h, if_neg h]

theorem ensure_replace_fixed (new : ResumeRow) (db : List ResumeRow)
    (hg : new.is_active = some true) :
    ensure_single_active_resume new (replaceById new (ensure_single_active_resume new db)) =
      replaceById new (ensure_single_active_resume new db) := by
  simp only [ensure_single_active_resume, hg, if_true]
  refine (List.map_congr_left (fun x hx => ?_)).trans (List.map_id _)
  rcases List.mem_map.1 hx with ⟨z, hz, hzx⟩
  by_cases hzid : z.id = new.id
  · rw [← hzx, if_pos hzid]
    exact deactivateRow_eq_of_id new new rfl
  · rw [← hzx, if_neg hzid]
    rcases List.mem_map.1 hz with ⟨y, _, hyz⟩
    rw [← hyz]
    exact deactivateRow_idem new y

/-- Claim C7: idempotence of the enforcer.  Running the trigger again
on the state it produced changes nothing, and performing the same
activating update twice leaves the table exactly as after the first
update. -/
theorem enforcer_idempotent (new : ResumeRow) (db : List ResumeRow) :
    ensure_single_active_resume new (ensure_single_active_resume new db) =
      ensure_single_active_resume new db ∧
    (new.is_active = some true →
      applyResumeWrite (applyResumeWrite db (.upd new)) (.upd new) =
        applyResumeWrite db (.upd new)) := by
  constructor
  · by_cases hg : new.is_active = some true
    · simp only [ensure_single_active_resume, hg, if_true, List.map_map]
      refine List.map_congr_left (fun r _ => ?_)
      simp only [Function.comp_apply]
      exact deactivateRow_idem new r
    · simp only [ensure_single_active_resume, if_neg hg]
  · intro hg
    by_cases hm : hasId new.id db
    · have hstep : applyResumeWrite db (ResumeWrite.upd new) =
          replaceById new (ensure_single_active_resume new db) := by
        simp only [applyResumeWrite, resumeUpdate]
        rw [if_pos hm]
      have hm2 : hasId new.id (replaceById new (ensure_single_active_resume new db)) = true := by
        rw [hasId_iff, replaceById_ids, ensure_ids]
        exact (hasId_iff new.id db).1 hm
      have hstep2 : applyResumeWrite (replaceById new (ensure_single_active_resume new db))
          (ResumeWrite.upd new) =
          replaceById new (ensure_single_active_resume new
            (replaceById new (ensure_single_active_resume new db))) := by
        simp only [applyResumeWrite, resumeUpdate]
        rw [if_pos hm2]
      rw [hstep, hstep2, ensure_replace_fixed new db hg, replace_replace_fixed]
    · have hstep : applyResumeWrite db (ResumeWrite.upd new) = db := by
        simp only [applyResumeWrite, resumeUpdate]
        rw [if_neg hm]
      rw [hstep, hstep]

/-- Witness for C7: activating the already active rowA twice. -/
theorem enforcer_idempotent_witness :
    applyResumeWrite (applyResumeWrite [rowA, rowB] (.upd rowA)) (.upd rowA) =
      applyResumeWrite [rowA, rowB] (.upd rowA) :=
  (enforcer_idempotent rowA [rowA, rowB]).2 rfl

/-- Claim C10: a resume written with a NULL is_active does not satisfy
the guard NEW.is_active = true, so the enforcer deactivates nothing:
the row is stored with is_active NULL, and every other row, in
particular a previously active resume of the same owner, is kept
unchanged. -/
theorem null_is_active_write (r : ResumeRow) (db : List ResumeRow)
    (h : r.is_active = none) :
    ensure_single_active_resume r db = db ∧
    (hasId r.id db = false → applyResumeWrite db (.ins r) = db ++ [r]) ∧
    (hasId r.id db = true → applyResumeWrite db (.upd r) = replaceById r db) ∧
    (∀ s ∈ db, s.id ≠ r.id → s ∈ applyResumeWrite db (.upd r)) := by
  have hens : ensure_single_active_resume r db = db := by
    simp [ensure_single_active_resume, h]
  refine ⟨hens, ?_, ?_, ?_⟩
  · intro hm
    simp only [applyResumeWrite, resumeInsert]
    rw [if_neg (by simp [hm]), hens]
  · intro hm
    simp only [applyResumeWrite, resumeUpdate]
    rw [if_pos hm, hens]
  · intro s hs hsid
    simp only [applyResumeWrite, resumeUpdate]
    by_cases hm : hasId r.id db
    · rw [if_pos hm, hens]
      exact List.mem_map.2 ⟨s, hs, by rw [if_neg hsid]⟩
    · rw [if_neg hm]
      exact hs

/-- Witness for C10: inserting a NULL-is_active resume next to an
active one leaves the active one active. -/
theorem null_is_active_write_witness :
    ensure_single_active_resume rowC [rowA] = [rowA] ∧
      applyResumeWrite [rowA] (ResumeWrite.ins rowC) = [rowA, rowC] :=
  ⟨(null_is_active_write rowC [rowA] rfl).1,
   (null_is_active_write rowC [rowA] rfl).2.1 (by decide)⟩

/-- The vote_type column, restricted by CHECK to up or down. -/
inductive VoteType where
  | up
  | down
  deriving DecidableEq

/-- A row of the contact_votes table. -/
structure VoteRow where
  id : Nat
  contact_id : Nat
  user_id : Nat
  vote_type : VoteType
  deriving DecidableEq

/-- A row of email_contacts restricted to the columns the aggregator
and the discovery view use. -/
structure ContactRow where
  id : Nat
  upvotes : Nat
  downvotes : Nat
  is_public : Bool
  created_at : Nat
  deriving DecidableEq

/-- The two tables the vote trigger touches. -/
structure VoteState where
  contacts : List ContactRow
  votes : List VoteRow
  deriving DecidableEq

/-- COUNT(*) FROM contact_votes WHERE contact_id = cid AND vote_type = t. -/
def voteCount (t : VoteType) (cid : Nat) (votes : List VoteRow) : Nat :=
  votes.countP (fun v => decide (v.contact_id = cid ∧ v.vote_type = t))

/-- Per-row effect of the UPDATE inside update_contact_vote_counts:
only the contact row whose id equals COALESCE(NEW.contact_id,
OLD.contact_id) receives the freshly counted values. -/
def recountRow (cid : Nat) (votes : List VoteRow) (c : ContactRow) : ContactRow :=
  if c.id = cid then
    { c with upvotes := voteCount .up cid votes, downvotes := voteCount .down cid votes }
  else c

/-- The trigger function update_contact_vote_counts, fired AFTER a vote
mutation, recounting both counters onto the single contact row named by
COALESCE(NEW.contact_id, OLD.contact_id). -/
def update_contact_vote_counts (cid : Nat) (s : VoteState) : VoteState :=
  { s with contacts := s.contacts.map (recountRow cid s.votes) }

/-- A mutation of the contact_votes table. -/
inductive VoteMut where
  | ins (v : VoteRow)
  | upd (v : VoteRow)
  | del (vid : Nat)

/-- Apply one vote mutation followed by the AFTER trigger.  An INSERT
violating the primary key or the UNIQUE(contact_id, user_id)
constraint fails atomically, as does an UPDATE colliding with another
row on the unique pair; an UPDATE or DELETE matching no row affects no
row and fires no trigger.  On DELETE the trigger sees OLD, so the
recounted contact is the one the removed vote pointed to; on INSERT
and UPDATE it is NEW.contact_id. -/
def applyVoteMut (s : VoteState) (m : VoteMut) : VoteState :=
  match m with
  | .ins v =>
    if s.votes.any (fun w => decide (w.id = v.id)) ||
        s.votes.any (fun w => decide (w.contact_id = v.contact_id ∧ w.user_id = v.user_id)) then
      s
    else
      update_contact_vote_counts v.contact_id { s with votes := s.votes ++ [v] }
  | .upd v =>
    if s.votes.any (fun w => decide (w.id = v.id)) then
      if s.votes.any (fun w =>
          decide (w.id ≠ v.id ∧ w.contact_id = v.contact_id ∧ w.user_id = v.user_id)) then
        s
      else
        update_contact_vote_counts v.contact_id
          { s with votes := s.votes.map (fun w => if w.id = v.id then v else w) }
    else s
  | .del vid =>
    match s.votes.find? (fun w => decide (w.id = vid)) with
    | none => s
    | some o =>
      update_contact_vote_counts o.contact_id
        { s with votes := s.votes.filter (fun w => decide (w.id ≠ vid)) }

/-- The counters of every contact equal the live counts of its votes. -/
def VoteInv (s : VoteState) : Prop :=
  ∀ c ∈ s.contacts,
    c.upvotes = voteCount .up c.id s.votes ∧ c.downvotes = voteCount .down c.id s.votes

/-- Vote primary keys are pairwise distinct. -/
def VoteWF (s : VoteState) : Prop :=
  (s.votes.map (fun v => v.id)).Nodup

/-- An update that keeps the vote on its contact; inserts and deletes
are unrestricted. -/
def keepsContact (s : VoteState) (m : VoteMut) : Prop :=
  match m with
  | .upd v => ∀ o ∈ s.votes, o.id = v.id → o.contact_id = v.contact_id
  | _ => True

/-- The side condition along a whole mutation sequence. -/
def keepsContactSeq : VoteState → List VoteMut → Prop
  | _, [] => True
  | s, m :: ms => keepsContact s m ∧ keepsContactSeq (applyVoteMut s m) ms

theorem recountRow_of_ne (cid : Nat) (votes : List VoteRow) (c : ContactRow)
    (h : c.id ≠ cid) : recountRow cid votes c = c := by
  unfold recountRow
  rw [if_neg h]

theorem voteInv_recount (s : VoteState) (cid : Nat) (votes2 : List VoteRow)
    (h : ∀ c ∈ s.contacts, c.id ≠ cid →
      voteCount .up c.id votes2 = voteCount .up c.id s.votes ∧
      voteCount .down c.id votes2 = voteCount .down c.id s.votes)
    (hInv : VoteInv s) :
    VoteInv (update_contact_vote_counts cid { s with votes := votes2 }) := by
  intro c hc
  simp only [update_contact_vote_counts] at hc ⊢
  rcases List.mem_map.1 hc with ⟨c0, hc0, rfl⟩
  by_cases hid : c0.id = cid
  · simp only [recountRow, if_pos hid]
    exact ⟨by rw [hid], by rw [hid]⟩
  · rw [recountRow_of_ne cid votes2 c0 hid]
    exact ⟨((hInv c0 hc0).1).trans (h c0 hc0 hid).1.symm,
           ((hInv c0 hc0).2).trans (h c0 hc0 hid).2.symm⟩

theorem voteWF_step (s : VoteState) (m : VoteMut) (h : VoteWF s) :
    VoteWF (applyVoteMut s m) := by
  cases m with
  | ins v =>
    simp only [applyVoteMut]
    by_cases hb : (s.votes.any (fun w => decide (w.id = v.id)) ||
        s.votes.any (fun w => decide (w.contact_id = v.contact_id ∧ w.user_id = v.user_id))) = true
    · rw [if_pos hb]; exact h
    · rw [if_neg hb]
      unfold VoteWF update_contact_vote_counts
      simp only []
      rw [List.map_append, List.nodup_append]
      refine ⟨h, List.nodup_singleton _, ?_⟩
      intro x hx hx2
      simp at hx2
      simp only [Bool.or_eq_true, not_or] at hb
      rcases List.mem_map.1 hx with ⟨y, hy, hxy⟩
      refine absurd ?_ hb.1
      simp only [List.any_eq_true]
      exact ⟨y, hy, by simp [hxy, hx2]⟩
  | upd v =>
    simp only [applyVoteMut]
    by_cases hm : s.votes.any (fun w => decide (w.id = v.id)) = true
    · rw [if_pos hm]
      by_cases hb : s.votes.any (fun w =>
          decide (w.id ≠ v.id ∧ w.contact_id = v.contact_id ∧ w.user_id = v.user_id)) = true
      · rw [if_pos hb]; exact h
      · rw [if_neg hb]
        unfold VoteWF update_contact_vote_counts
        simp only []
        rw [List.map_map]
        have : s.votes.map ((fun w => w.id) ∘ fun w => if w.id = v.id then v else w) =
            s.votes.map (fun w => w.id) := by
          refine List.map_congr_left (fun w _ => ?_)
          simp only [Function.comp_apply]
          by_cases hw : w.id = v.id
          · rw [if_pos hw, hw]
          · rw [if_neg hw]
        rw [this]
        exact h
    · rw [if_neg hm]; exact h
  | del vid =>
    simp only [applyVoteMut]
    cases hf : s.votes.find? (fun w => decide (w.id = vid)) with
    | none => exact h
    | some o =>
      unfold VoteWF update_contact_vote_counts
      simp only []
      exact List.Nodup.sublist
        (List.Sublist.map (fun v : VoteRow => v.id) (List.filter_sublist s.votes)) h

theorem voteInv_step (s : VoteState) (m : VoteMut) (hWF : VoteWF s) (hInv : VoteInv s)
    (hkeep : keepsContact s m) : VoteInv (applyVoteMut s m) := by
  cases m with
  | ins v =>
    simp only [applyVoteMut]
    by_cases hb : (s.votes.any (fun w => decide (w.id = v.id)) ||
        s.votes.any (fun w => decide (w.contact_id = v.contact_id ∧ w.user_id = v.user_id))) = true
    · rw [if_pos hb]; exact hInv
    · rw [if_neg hb]
      refine voteInv_recount s v.contact_id _ (fun c _ hc => ?_) hInv
      constructor <;>
      · unfold voteCount
        rw [List.countP_append, List.countP_singleton,
          if_neg (by simp only [decide_eq_true_eq]; exact fun hx => hc hx.1.symm)]
        omega
  | upd v =>
    simp only [applyVoteMut]
    by_cases hm : s.votes.any (fun w => decide (w.id = v.id)) = true
    · rw [if_pos hm]
      by_cases hb : s.votes.any (fun w =>
          decide (w.id ≠ v.id ∧ w.contact_id = v.contact_id ∧ w.user_id = v.user_id)) = true
      · rw [if_pos hb]; exact hInv
      · rw [if_neg hb]
        refine voteInv_recount s v.contact_id _ (fun c _ hc => ?_) hInv
        constructor <;>
        · unfold voteCount
          rw [List.countP_map]
          refine List.countP_congr (fun w hw => ?_)
          simp only [Function.comp_apply, decide_eq_true_eq]
          by_cases hwid : w.id = v.id
          · rw [if_pos hwid]
            have hcw : w.contact_id = v.contact_id := hkeep w hw hwid
            constructor
            · intro hx
              exact absurd hx.1.symm hc
            · intro hx
              exact absurd (hcw.symm.trans hx.1).symm hc
          · rw [if_neg hwid]
    · rw [if_neg hm]; exact hInv
  | del vid =>
    simp only [applyVoteMut]
    cases hf : s.votes.find? (fun w => decide (w.id = vid)) with
    | none => exact hInv
    | some o =>
      have ho : o ∈ s.votes := List.mem_of_find?_eq_some hf
      have hoid : o.id = vid := by
        have := List.find?_some hf
        simpa using this
      refine voteInv_recount s o.contact_id _ (fun c _ hc => ?_) hInv
      constructor <;>
      · unfold voteCount
        rw [List.countP_filter]
        refine List.countP_congr (fun w hw => ?_)
        simp only [Bool.and_eq_true, decide_eq_true_eq]
        constructor
        · exact fun hx => hx.1
        · intro hx
          refine ⟨hx, ?_⟩
          intro hwid
          have : w = o := List.inj_on_of_nodup_map hWF hw ho (by rw [hwid, hoid])
          exact hc (by rw [← this, hx.1])

/-- Claim C2 (amended): from any state whose counters are correct and
whose vote ids are distinct, a sequence of vote inserts, updates and
deletes in which no update moves a vote to a different contact keeps,
after each mutation completes, every contact's upvotes and downvotes
equal to the live counts of its up and down votes; in particular
deleting the last vote of a contact leaves both counters at zero and
turning the only up vote into a down vote yields counts zero and one. -/
theorem vote_recount_invariant (s : VoteState) (ms : List VoteMut)
    (hWF : VoteWF s) (hInv : VoteInv s) (hseq : keepsContactSeq s ms) :
    VoteInv (ms.foldl applyVoteMut s) := by
  induction ms generalizing s with
  | nil => exact hInv
  | cons m ms ih =>
    exact ih (applyVoteMut s m) (voteWF_step s m hWF)
      (voteInv_step s m hWF hInv hseq.1) hseq.2

/-- A public contact with empty counters. -/
def contactA : ContactRow :=
  { id := 1, upvotes := 0, downvotes := 0, is_public := true, created_at := 0 }

/-- A second public contact with empty counters. -/
def contactB : ContactRow :=
  { id := 2, upvotes := 0, downvotes := 0, is_public := true, created_at := 0 }

/-- An up vote by user 5 on contact 1. -/
def voteUpA : VoteRow := { id := 10, contact_id := 1, user_id := 5, vote_type := .up }

/-- The same vote row turned into a down vote. -/
def voteDownA : VoteRow := { id := 10, contact_id := 1, user_id := 5, vote_type := .down }

/-- The same vote row moved to contact 2. -/
def voteUpB : VoteRow := { id := 10, contact_id := 2, user_id := 5, vote_type := .up }

/-- Two fresh contacts and no votes. -/
def stateAB : VoteState := { contacts := [contactA, contactB], votes := [] }

/-- Witness for C2: insert an up vote, flip it to down, delete it. -/
theorem vote_recount_invariant_witness :
    VoteWF stateAB ∧ VoteInv stateAB ∧
      keepsContactSeq stateAB [VoteMut.ins voteUpA, VoteMut.upd voteDownA, VoteMut.del 10] ∧
      VoteInv ([VoteMut.ins voteUpA, VoteMut.upd voteDownA,
        VoteMut.del 10].foldl applyVoteMut stateAB) := by
  have hwf : VoteWF stateAB := by simp [VoteWF, stateAB]
  have hinv : VoteInv stateAB := by
    intro c hc
    simp [stateAB] at hc
    rcases hc with rfl | rfl <;> simp [contactA, contactB, voteCount, stateAB]
  have hks : keepsContactSeq stateAB
      [VoteMut.ins voteUpA, VoteMut.upd voteDownA, VoteMut.del 10] := by
    refine ⟨trivial, ?_, trivial, trivial⟩
    intro o ho hid
    have h2 : o ∈ [voteUpA] := ho
    have h3 : o = voteUpA := by simpa using h2
    rw [h3]
    rfl
  exact ⟨hwf, hinv, hks, vote_recount_invariant stateAB _ hwf hinv hks⟩

/-- Counterexample to C2 as stated: insert an up vote on contact 1,
then update the vote so that it points at contact 2.  The trigger only
recounts contact 2, so contact 1 still stores upvotes = 1 although the
live count of up votes referencing contact 1 is 0. -/
theorem vote_move_stale_counterexample :
    ([VoteMut.ins voteUpA, VoteMut.upd voteUpB].foldl applyVoteMut stateAB).contacts =
      [{ contactA with upvotes := 1 }, { contactB with upvotes := 1 }] ∧
    voteCount VoteType.up 1
      ([VoteMut.ins voteUpA, VoteMut.upd voteUpB].foldl applyVoteMut stateAB).votes = 0 ∧
    (1 : Nat) ≠ 0 := by
  refine ⟨by decide, by decide, by decide⟩

/-- Claim C9: the recount trigger leaves the votes table alone and
rewrites, via recountRow, only the contact row whose id is
COALESCE(NEW.contact_id, OLD.contact_id); consequently after a vote
update every contact other than the vote's new contact, in particular
the old contact of a moved vote, keeps its previous counter values. -/
theorem recount_frame (cid : Nat) (s : VoteState) :
    (update_contact_vote_counts cid s).votes = s.votes ∧
    (update_contact_vote_counts cid s).contacts = s.contacts.map (recountRow cid s.votes) ∧
    (∀ c : ContactRow, c.id ≠ cid → recountRow cid s.votes c = c) ∧
    (∀ v : VoteRow, ∀ c ∈ s.contacts, c.id ≠ v.contact_id →
      c ∈ (applyVoteMut s (.upd v)).contacts) := by
  refine ⟨rfl, rfl, fun c hc => recountRow_of_ne cid s.votes c hc, ?_⟩
  intro v c hc hne
  simp only [applyVoteMut]
  by_cases hm : s.votes.any (fun w => decide (w.id = v.id)) = true
  · rw [if_pos hm]
    by_cases hb : s.votes.any (fun w =>
        decide (w.id ≠ v.id ∧ w.contact_id = v.contact_id ∧ w.user_id = v.user_id)) = true
    · rw [if_pos hb]; exact hc
    · rw [if_neg hb]
      simp only [update_contact_vote_counts]
      exact List.mem_map.2 ⟨c, hc, recountRow_of_ne _ _ c hne⟩
  · rw [if_neg hm]; exact hc

/-- Witness for C9: the old contact of a moved vote is still present,
with its previous counters, after the update. -/
theorem recount_frame_witness :
    contactA ∈ (applyVoteMut { contacts := [contactA, contactB], votes := [voteUpA] }
      (VoteMut.upd voteUpB)).contacts :=
  (recount_frame 1 { contacts := [contactA, contactB], votes := [voteUpA] }).2.2.2
    voteUpB contactA (by decide) (by decide)

/-- A row of user_profiles restricted to the fields the scorer reads,
plus the derived completeness column.  Nullable columns are Option. -/
structure ProfileRow where
  full_name : Option String
  phone : Option String
  linkedin_url : Option String
  bio : Option String
  target_position : Option String
  target_industry : Option String
  profile_picture_url : Option String
  github_url : Option String
  portfolio_url : Option String
  years_of_experience : Option Int
  education_level : Option String
  preferred_locations : Option (List String)
  availability_date : Option Nat
  salary_expectation : Option String
  email_signature : Option String
  profile_completeness : Nat
  deriving DecidableEq

/-- The test NEW.x IS NOT NULL AND NEW.x != '' used for the text
columns of calculate_profile_completeness. -/
def textFilled (s : Option String) : Bool :=
  match s with
  | none => false
  | some t => decide (t ≠ "")

/-- NEW.years_of_experience IS NOT NULL AND NEW.years_of_experience > 0. -/
def experienceFilled (n : Option Int) : Bool :=
  match n with
  | none => false
  | some y => decide (0 < y)

/-- NEW.education_level IS NOT NULL; the code has no emptiness test on
this column. -/
def educationFilled (s : Option String) : Bool := s.isSome

/-- array_length(NEW.preferred_locations, 1) > 0.  In PostgreSQL
array_length of an empty array is NULL, so the test fails for NULL and
for the empty array alike. -/
def locationsFilled (l : Option (List String)) : Bool :=
  match l with
  | none => false
  | some xs => decide (0 < xs.length)

/-- NEW.availability_date IS NOT NULL. -/
def dateFilled (d : Option Nat) : Bool := d.isSome

/-- The number of tracked fields the scorer counts, one addend per IF
block of calculate_profile_completeness, in the order of the code. -/
def filledCount (p : ProfileRow) : Nat :=
  (if textFilled p.full_name then 1 else 0) +
  (if textFilled p.phone then 1 else 0) +
  (if textFilled p.linkedin_url then 1 else 0) +
  (if textFilled p.bio then 1 else 0) +
  (if textFilled p.target_position then 1 else 0) +
  (if textFilled p.target_industry then 1 else 0) +
  (if textFilled p.profile_picture_url then 1 else 0) +
  (if textFilled p.github_url then 1 else 0) +
  (if textFilled p.portfolio_url then 1 else 0) +
  (if experienceFilled p.years_of_experience then 1 else 0) +
  (if educationFilled p.education_level then 1 else 0) +
  (if locationsFilled p.preferred_locations then 1 else 0) +
  (if dateFilled p.availability_date then 1 else 0) +
  (if textFilled p.salary_expectation then 1 else 0) +
  (if textFilled p.email_signature then 1 else 0)

/-- The declared constant total_fields of the trigger function. -/
def total_fields : Nat := 15

/-- The BEFORE trigger calculate_profile_completeness: counts the
filled fields and overwrites NEW.profile_completeness with
(completeness * 100) / total_fields, PostgreSQL integer division. -/
def calculate_profile_completeness (p : ProfileRow) : ProfileRow :=
  { p with profile_completeness := filledCount p * 100 / total_fields }

/-- A profile whose sole filled field is the full name; the caller
supplied a bogus completeness of 999 that the trigger must overwrite. -/
def profile1 : ProfileRow :=
  { full_name := some "Jane", phone := none, linkedin_url := none, bio := none,
    target_position := none, target_industry := none, profile_picture_url := none,
    github_url := none, portfolio_url := none, years_of_experience := none,
    education_level := none, preferred_locations := none, availability_date := none,
    salary_expectation := none, email_signature := none, profile_completeness := 999 }

/-- Claim C3: the stored completeness is always the server-derived
floor(filled_count * 100 / 15), whatever completeness the caller
supplied; 0 filled fields give 0, all 15 give 100, exactly one gives 6. -/
theorem completeness_floor_formula (p : ProfileRow) :
    (calculate_profile_completeness p).profile_completeness = filledCount p * 100 / 15 ∧
    (∀ c : Nat, calculate_profile_completeness { p with profile_completeness := c } =
      calculate_profile_completeness p) ∧
    (filledCount p = 0 → (calculate_profile_completeness p).profile_completeness = 0) ∧
    (filledCount p = 15 → (calculate_profile_completeness p).profile_completeness = 100) ∧
    (filledCount p = 1 → (calculate_profile_completeness p).profile_completeness = 6) := by
  refine ⟨rfl, fun c => rfl, ?_, ?_, ?_⟩ <;>
  · intro h
    simp [calculate_profile_completeness, total_fields, h]

/-- Witness for C3 at the one-filled-field profile. -/
theorem completeness_floor_formula_witness :
    (calculate_profile_completeness profile1).profile_completeness = 6 :=
  (completeness_floor_formula profile1).2.2.2.2 (by decide)

/-- Modelled from the spec: the rounded percentage
round(100 * filled_count / 15) that claim C4 asserts the scorer stores. -/
def spec_round_completeness (filled : Nat) : Nat :=
  (200 * filled + 15) / 30

/-- Counterexample to C4 as stated: with exactly one filled field the
scorer stores 6, but round(100 * 1 / 15) is 7. -/
theorem completeness_round_counterexample :
    (calculate_profile_completeness profile1).profile_completeness = 6 ∧
    spec_round_completeness (filledCount profile1) = 7 ∧ (6 : Nat) ≠ 7 :=
  ⟨by decide, by decide, by decide⟩

/-- Claim C4 (amended): the stored completeness equals the truncated
percentage floor(100 * filled_count / 15), not the rounded one. -/
theorem completeness_truncated (p : ProfileRow) :
    (calculate_profile_completeness p).profile_completeness = 100 * filledCount p / 15 := by
  simp [calculate_profile_completeness, total_fields, Nat.mul_comm]

/-- Modelled from the spec: the text-field predicate of claim C6,
filled iff non-null and not an empty or whitespace-only string. -/
def spec_textFilled (s : Option String) : Bool :=
  match s with
  | none => false
  | some t => t.toList.any (fun c => !c.isWhitespace)

/-- A profile whose only non-null tracked field is a single space. -/
def profileSpace : ProfileRow :=
  { full_name := some " ", phone := none, linkedin_url := none, bio := none,
    target_position := none, target_industry := none, profile_picture_url := none,
    github_url := none, portfolio_url := none, years_of_experience := none,
    education_level := none, preferred_locations := none, availability_date := none,
    salary_expectation := none, email_signature := none, profile_completeness := 0 }

/-- Counterexample to C6 as stated: the scorer tests only != '', so a
whitespace-only full name counts as filled (filled_count 1,
completeness 6) although the claim's predicate rejects it; moreover
the education_level test carries no emptiness check at all. -/
theorem whitespace_filled_counterexample :
    textFilled (some " ") = true ∧
    spec_textFilled (some " ") = false ∧
    filledCount profileSpace = 1 ∧
    (calculate_profile_completeness profileSpace).profile_completeness = 6 ∧
    educationFilled (some "") = true := by
  decide

/-- Claim C6 (amended): in the scorer a tracked text field counts as
filled exactly when it is non-null and different from the empty
string, so a whitespace-only string does count as filled; the
education level field counts whenever it is non-null. -/
theorem text_filled_iff :
    (∀ s : Option String, textFilled s = true ↔ ∃ t : String, s = some t ∧ t ≠ "") ∧
    (∀ s : Option String, educationFilled s = true ↔ s ≠ none) ∧
    (calculate_profile_completeness profileSpace).profile_completeness = 6 := by
  refine ⟨?_, ?_, by decide⟩
  · intro s
    cases s with
    | none => simp [textFilled]
    | some t => simp [textFilled]
  · intro s
    cases s <;> simp [educationFilled]

/-- The score column of public_contacts_view: upvotes - downvotes. -/
def score (c : ContactRow) : Int := (c.upvotes : Int) - (c.downvotes : Int)

/-- The ORDER BY of public_contacts_view: score descending, ties
broken by created_at descending. -/
def viewOrder (a b : ContactRow) : Prop :=
  score b < score a ∨ (score a = score b ∧ b.created_at ≤ a.created_at)

instance : DecidableRel viewOrder := fun a b => by
  unfold viewOrder
  infer_instance

instance : IsTotal ContactRow viewOrder := by
  constructor
  intro a b
  rcases lt_trichotomy (score a) (score b) with h | h | h
  · exact Or.inr (Or.inl h)
  · rcases Nat.le_total b.created_at a.created_at with hc | hc
    · exact Or.inl (Or.inr ⟨h, hc⟩)
    · exact Or.inr (Or.inr ⟨h.symm, hc⟩)
  · exact Or.inl (Or.inl h)

instance : IsTrans ContactRow viewOrder := by
  constructor
  intro a b c hab hbc
  rcases hab with h1 | ⟨h1, h2⟩ <;> rcases hbc with h3 | ⟨h3, h4⟩
  · exact Or.inl (h3.trans h1)
  · exact Or.inl (h3 ▸ h1)
  · exact Or.inl (by rw [h1]; exact h3)
  · exact Or.inr ⟨h1.trans h3, le_trans h4 h2⟩

/-- The view public_contacts_view restricted to what the claims use:
WHERE is_public = true, ORDER BY (upvotes - downvotes) DESC,
created_at DESC, evaluated at read time over the stored counters. -/
def public_contacts_view (contacts : List ContactRow) : List ContactRow :=
  (contacts.filter (fun c => c.is_public)).insertionSort viewOrder

/-- The (5,1) contact of the spec scenario, created at time 1. -/
def contactFive1 : ContactRow :=
  { id := 11, upvotes := 5, downvotes := 1, is_public := true, created_at := 1 }

/-- The (3,0) contact of the spec scenario, created last, at time 3. -/
def contactThree0 : ContactRow :=
  { id := 12, upvotes := 3, downvotes := 0, is_public := true, created_at := 3 }

/-- The (5,2) contact of the spec scenario, created at time 2. -/
def contactFive2 : ContactRow :=
  { id := 13, upvotes := 5, downvotes := 2, is_public := true, created_at := 2 }

/-- Claim C8: the discovery listing holds exactly the public contacts,
sorted by score descending with ties broken by newest creation time
first, and on the spec's three contacts with (up,down) counts (5,1),
(3,0) and (5,2) it lists the (5,1) contact first and then the two
score-3 contacts with the more recently created one ahead. -/
theorem view_ordering :
    (∀ contacts : List ContactRow,
      (public_contacts_view contacts).Sorted viewOrder ∧
      (public_contacts_view contacts).Perm (contacts.filter (fun c => c.is_public))) ∧
    public_contacts_view [contactThree0, contactFive2, contactFive1] =
      [contactFive1, contactThree0, contactFive2] ∧
    public_contacts_view [contactFive1, contactThree0, contactFive2] =
      [contactFive1, contactThree0, contactFive2] := by
  refine ⟨fun contacts => ⟨List.sorted_insertionSort viewOrder _,
    List.perm_insertionSort viewOrder _⟩, by decide, by decide⟩
